import Mathlib

/-!
Shallow embedding of `src/node/raw_text.rs` from the rstml repository.

The file models the `RawText` node — rstml's filler-text node for unquoted
content between recognized nodes — together with its parsing loop, its
context-span assignment (`vec_set_context`) and its three text-recovery
strategies (`to_source_text` with and without whitespace recovery, and the
lossy `to_token_stream_string` fallback composed by `to_string_best`).

Modelling decisions:
* proc-macro spans are opaque: a type `S` together with a `SpanEnv S`
  supplying the two fallible capabilities the code uses, `Span::join` and
  `Span::source_text`.  Source text is a `List Char`.
* proc-macro token trees are modelled by `Tok`: a kind (punctuation,
  group with a delimiter, string literal, other literal, identifier) plus a
  span.  Group contents are irrelevant to every property studied here (a
  group is consumed as one token-tree unit), so they are not modelled.
* Rust panics are explicit: `PRes α` is either `panic` (a failed
  `debug_assert!` or an out-of-range string-slice index) or `ok`.
* Rust's `&s[a..b]` on a string is `rustSlice`: it panics unless
  `a ≤ b ∧ b ≤ s.length`, and otherwise yields the sub-list.
-/

namespace Rstml

/-- Group delimiters of the proc-macro token model. -/
inductive Delim : Type where
  | brace
  | paren
  | bracket
  deriving DecidableEq

/-- Kind of one proc-macro token tree: punctuation character, delimited
group, string literal, other literal, or identifier. -/
inductive TokKind : Type where
  | punct (c : Char)
  | group (d : Delim)
  | litStr (s : List Char)
  | lit (s : List Char)
  | ident (s : List Char)
  deriving DecidableEq

/-- One proc-macro token tree: a kind plus its span (spans are opaque
handles of type `S`). -/
structure Tok (S : Type) where
  kind : TokKind
  span : S
  deriving DecidableEq

/-- The span capabilities the code consumes from the proc-macro
environment: `Span::join` and `Span::source_text`, both fallible. -/
structure SpanEnv (S : Type) where
  join : S → S → Option S
  sourceText : S → Option (List Char)

/-- `RawText` from `raw_text.rs`: an owned token stream plus the optional
context span pair `(before, after)` set later by the owning container. -/
structure RawText (S : Type) where
  token_stream : List (Tok S)
  context_span : Option (S × S)
  deriving DecidableEq

/-- `RawText::set_tag_spans`: store the two boundary spans. -/
def RawText.set_tag_spans {S : Type} (self : RawText S) (before after : S) :
    RawText S :=
  { self with context_span := some (before, after) }

/-- Default-spacing rendering of one token kind, modelling proc_macro2's
`Display` for a token tree (lossy; group contents are not modelled). -/
def TokKind.render : TokKind → List Char
  | .punct c => [c]
  | .group .brace => ['\x7b', '\x7d']
  | .group .paren => ['(', ')']
  | .group .bracket => ['[', ']']
  | .litStr s => '"' :: s ++ ['"']
  | .lit s => s
  | .ident s => s

/-- `RawText::to_token_stream_string`: the `Display` rendering of the inner
token stream, modelled as the tokens' renderings joined by single spaces.
Total by construction — this is recovery strategy 3. -/
def RawText.to_token_stream_string {S : Type} (self : RawText S) : List Char :=
  List.intercalate [' '] (self.token_stream.map fun t => t.kind.render)

/-- Result of a Rust computation that can panic. -/
inductive PRes (α : Type) : Type where
  | panic
  | ok (val : α)
  deriving DecidableEq

/-- Rust string slicing `&s[a..b]`: panics when the range is invalid. -/
def rustSlice (s : List Char) (a b : Nat) : PRes (List Char) :=
  if a ≤ b ∧ b ≤ s.length then .ok ((s.drop a).take (b - a)) else .panic

/-- The loop of `RawText::join_spans`: fold `Span::join` over the token
spans in order; a failing join aborts the whole computation with `none`,
and an empty stream leaves the accumulator at `none`. -/
def joinSpansLoop {S : Type} (env : SpanEnv S) :
    Option S → List (Tok S) → Option S
  | sp, [] => sp
  | sp, tt :: rest =>
    match (match sp with
           | some s => env.join s tt.span
           | none => some tt.span) with
    | none => none
    | some j => joinSpansLoop env (some j) rest

/-- `RawText::join_spans`: join the spans of all own tokens pairwise in
encountered order; `none` for an empty stream or a failed join. -/
def RawText.join_spans {S : Type} (env : SpanEnv S) (self : RawText S) :
    Option S :=
  joinSpansLoop env none self.token_stream

/-- `RawText::to_source_text`: recovery strategies 1 (`with_whitespaces =
true`, context-exact) and 2 (`with_whitespaces = false`, own-tokens-exact).
The two `debug_assert!` checks and the string slice of strategy 1 are the
panic sites. -/
def RawText.to_source_text {S : Type} (env : SpanEnv S) (self : RawText S)
    (with_whitespaces : Bool) : PRes (Option (List Char)) :=
  if with_whitespaces then
    match self.context_span with
    | none => .ok none
    | some (start, stop) =>
      match env.join start stop with
      | none => .ok none
      | some full =>
        match env.sourceText full with
        | none => .ok none
        | some full_text =>
          match env.sourceText start with
          | none => .ok none
          | some start_text =>
            match env.sourceText stop with
            | none => .ok none
            | some end_text =>
              if end_text.isSuffixOf full_text then
                if start_text.isPrefixOf full_text then
                  match rustSlice full_text start_text.length
                      (full_text.length - end_text.length) with
                  | .panic => .panic
                  | .ok s => .ok (some s)
                else .panic
              else .panic
  else
    .ok ((self.join_spans env).bind env.sourceText)

/-- `RawText::is_empty`. -/
def RawText.is_empty {S : Type} (self : RawText S) : Bool :=
  self.token_stream.isEmpty

/-- `RawText::to_string_best`: strategy 1, else strategy 2, else the total
strategy 3; a panic in a strategy propagates. -/
def RawText.to_string_best {S : Type} (env : SpanEnv S) (self : RawText S) :
    PRes (List Char) :=
  match self.to_source_text env true with
  | .panic => .panic
  | .ok (some s) => .ok s
  | .ok none =>
    match self.to_source_text env false with
    | .panic => .panic
    | .ok (some s) => .ok s
    | .ok none => .ok self.to_token_stream_string

/-- The sibling node list `Vec<Node<C>>`, restricted to what
`vec_set_context` inspects: whether a child is `Node::RawText`, and each
child's representative span.
Modelled from the spec: `Node::span` itself lives outside `raw_text.rs`
("every variant exposes a representative span"), so the representative
span is carried as data on each variant. -/
inductive Node (S : Type) : Type where
  | rawText (t : RawText S) (sp : S)
  | other (sp : S)
  deriving DecidableEq

/-- Modelled from the spec: the representative span of a node, used by
`vec_set_context` via `n.span()` (`Node::span` is outside `raw_text.rs`). -/
def Node.span {S : Type} : Node S → S
  | .rawText _ sp => sp
  | .other sp => sp

/-- The `spans` list built inside `vec_set_context`:
`[open_tag_end] ++ (children's spans) ++ close_tag_start`. -/
def boundarySpans {S : Type} (open_tag_end : S) (close_tag_start : Option S)
    (children : List (Node S)) : List S :=
  open_tag_end :: children.map Node.span ++ close_tag_start.toList

/-- The body of the `spans.windows(3).zip(&mut children)` loop applied to
one child: a `RawText` child receives `set_tag_spans spans[0] spans[2]`,
any other child is unchanged. -/
def applyWindow {S : Type} (b0 b2 : S) : Node S → Node S
  | .rawText t sp => .rawText (t.set_tag_spans b0 b2) sp
  | .other sp => .other sp

/-- `spans.windows(3).zip(&mut children)`: successive width-3 windows of
the boundary list paired with the children in order; children left without
a window (the zip's leftover) are unchanged. -/
def setCtxLoop {S : Type} : List S → List (Node S) → List (Node S)
  | _, [] => []
  | bs, n :: ns =>
    match bs with
    | b0 :: b1 :: b2 :: brest =>
      applyWindow b0 b2 n :: setCtxLoop (b1 :: b2 :: brest) ns
    | _ => n :: ns

/-- `RawText::vec_set_context`. -/
def RawText.vec_set_context {S : Type} (open_tag_end : S)
    (close_tag_start : Option S) (children : List (Node S)) :
    List (Node S) :=
  setCtxLoop (boundarySpans open_tag_end close_tag_start children) children

/-- The `any_node` closure of `impl Parse for RawText` applied to the
peeked token kind: `input.peek(Token![<]) || input.peek(Brace) ||
input.peek(LitStr)`. -/
def any_node_tok : TokKind → Bool
  | .punct c => c = '<'
  | .group d => d = Delim.brace
  | .litStr _ => true
  | _ => false

/-- The `any_node` closure of `impl Parse for RawText`: peek at the
cursor's next token (`false` on an empty cursor). -/
def any_node {S : Type} : List (Tok S) → Bool
  | [] => false
  | t :: _ => any_node_tok t.kind

/-- The parse loop of `impl Parse for RawText`: while the cursor is
non-empty and `any_node` fails, consume one token tree and append it.
Returns the accumulated tokens and the remaining cursor. -/
def rawTextLoop {S : Type} : List (Tok S) → List (Tok S) × List (Tok S)
  | [] => ([], [])
  | t :: rest =>
    if any_node_tok t.kind then ([], t :: rest)
    else
      let p := rawTextLoop rest
      (t :: p.1, p.2)

/-- `impl Parse for RawText`: run the loop and build the node with
`context_span: None`.  (On a non-empty cursor `parse::<TokenTree>` always
succeeds, so the loop is total.) -/
def rawTextParse {S : Type} (input : List (Tok S)) :
    RawText S × List (Tok S) :=
  ({ token_stream := (rawTextLoop input).1, context_span := none },
    (rawTextLoop input).2)

/-- `impl From<TokenStream> for RawText`. -/
def rawTextFromStream {S : Type} (token_stream : List (Tok S)) : RawText S :=
  { token_stream := token_stream, context_span := none }

/-- `#[derive(Default)]` for `RawText`: empty stream, no context. -/
def rawTextDefault (S : Type) : RawText S :=
  { token_stream := [], context_span := none }

/-- Concrete span environment over `S := Nat` used to evaluate theorems on
explicit inputs.  Spans 0 and 1 join to 2 over the source `<a> hi </a>`
(scenario A); spans 3 and 4 join to 5 over the source `<a></a>`
(scenario B, nothing between the two tags). -/
def cEnv : SpanEnv Nat where
  join x y :=
    if x = 0 ∧ y = 1 then some 2
    else if x = 3 ∧ y = 4 then some 5
    else none
  sourceText sp :=
    if sp = 0 then some ['<', 'a', '>']
    else if sp = 1 then some ['<', '/', 'a', '>']
    else if sp = 2 then some ['<', 'a', '>', ' ', 'h', 'i', ' ', '<', '/', 'a', '>']
    else if sp = 3 then some ['<', 'a', '>']
    else if sp = 4 then some ['<', '/', 'a', '>']
    else if sp = 5 then some ['<', 'a', '>', '<', '/', 'a', '>']
    else none

/-- Degenerate span environment over `S := Nat`: spans 0 and 1 denote the
same two-character region, their join 2 covers that same region, and every
source text is `ab`. -/
def cEnvX : SpanEnv Nat where
  join x y := if x = 0 ∧ y = 1 then some 2 else none
  sourceText sp := if sp ≤ 2 then some ['a', 'b'] else none

/-- A concrete filler token (an identifier) over `S := Nat`. -/
def cTokId : Tok Nat :=
  { kind := TokKind.ident ['h', 'i'], span := 0 }

/-- A concrete node-start token (the tag-open punct `<`) over `S := Nat`. -/
def cTokLt : Tok Nat :=
  { kind := TokKind.punct '<', span := 1 }

/-! ## Lemmas about the parse loop -/

theorem rawTextLoop_append {S : Type} (l : List (Tok S)) :
    (rawTextLoop l).1 ++ (rawTextLoop l).2 = l := by
  induction l with
  | nil => rfl
  | cons t rest ih =>
    by_cases h : any_node_tok t.kind
    · simp [rawTextLoop, h]
    · simp [rawTextLoop, h, ih]

theorem rawTextLoop_rest {S : Type} (l : List (Tok S)) :
    (rawTextLoop l).2 = [] ∨ any_node (rawTextLoop l).2 = true := by
  induction l with
  | nil => exact Or.inl rfl
  | cons t rest ih =>
    by_cases h : any_node_tok t.kind
    · exact Or.inr (by simp [rawTextLoop, h, any_node])
    · simpa [rawTextLoop, h] using ih

theorem rawTextLoop_consumed {S : Type} (l : List (Tok S)) :
    ∀ t ∈ (rawTextLoop l).1, any_node_tok t.kind = false := by
  induction l with
  | nil => intro t ht; simp [rawTextLoop] at ht
  | cons t rest ih =>
    by_cases h : any_node_tok t.kind
    · intro u hu; simp [rawTextLoop, h] at hu
    · intro u hu
      simp only [rawTextLoop, h] at hu
      rcases List.mem_cons.mp (by simpa using hu) with rfl | hu
      · simpa using h
      · exact ih u hu

/-! ## The claims -/

/-- C4: for a non-empty cursor whose next token does not match a
node-start pattern, parsing a `RawText` consumes at least one token tree,
appends the consumed tokens in input order, every consumed token fails the
node-start patterns, and it stops exactly at the first node-start token or
at the end of input. -/
theorem raw_text_parse_segmentation {S : Type} (input : List (Tok S))
    (hne : input ≠ []) (hstart : any_node input = false) :
    1 ≤ (rawTextParse input).1.token_stream.length ∧
    (rawTextParse input).1.token_stream ++ (rawTextParse input).2 = input ∧
    ((rawTextParse input).2 = [] ∨ any_node (rawTextParse input).2 = true) ∧
    ∀ t ∈ (rawTextParse input).1.token_stream, any_node_tok t.kind = false := by
  match input, hne with
  | t :: rest, _ =>
    have ht : any_node_tok t.kind = false := by simpa [any_node] using hstart
    refine ⟨?_, ?_, ?_, ?_⟩
    · simp [rawTextParse, rawTextLoop, ht]
    · simpa [rawTextParse] using rawTextLoop_append (t :: rest)
    · simpa [rawTextParse] using rawTextLoop_rest (t :: rest)
    · simpa [rawTextParse] using rawTextLoop_consumed (t :: rest)

/-- C4, instantiated: the cursor `[hi, <]` consumes exactly the identifier
and stops at the tag-open token. -/
theorem raw_text_parse_segmentation_case :
    1 ≤ (rawTextParse [cTokId, cTokLt]).1.token_stream.length ∧
    (rawTextParse [cTokId, cTokLt]).1.token_stream ++
      (rawTextParse [cTokId, cTokLt]).2 = [cTokId, cTokLt] ∧
    ((rawTextParse [cTokId, cTokLt]).2 = [] ∨
      any_node (rawTextParse [cTokId, cTokLt]).2 = true) ∧
    ∀ t ∈ (rawTextParse [cTokId, cTokLt]).1.token_stream,
      any_node_tok t.kind = false :=
  raw_text_parse_segmentation [cTokId, cTokLt] (by decide) (by decide)

/-- C5: if the cursor is empty or its next token already matches a
node-start pattern, parsing succeeds, consumes nothing, and yields an
empty `RawText` with no context assigned. -/
theorem raw_text_parse_empty_case {S : Type} (input : List (Tok S))
    (h : input = [] ∨ any_node input = true) :
    rawTextParse input =
      ({ token_stream := [], context_span := none }, input) := by
  rcases h with rfl | h
  · rfl
  · match input, h with
    | t :: rest, h =>
      have ht : any_node_tok t.kind = true := by simpa [any_node] using h
      simp [rawTextParse, rawTextLoop, ht]

/-- C5, instantiated: a cursor starting with the tag-open token `<` yields
an empty `RawText` and an untouched cursor. -/
theorem raw_text_parse_empty_case_inst :
    rawTextParse [cTokLt] =
      ({ token_stream := [], context_span := none }, [cTokLt]) :=
  raw_text_parse_empty_case [cTokLt] (Or.inr (by decide))

/-- C9: a `RawText` built by parsing, by `From<TokenStream>` or by
`Default` has no context span assigned, and the context-exact strategy on
an unassigned context yields unavailable (`ok none`), never a panic. -/
theorem context_none_at_construction {S : Type} (env : SpanEnv S)
    (input toks : List (Tok S)) :
    (rawTextParse input).1.context_span = none ∧
    (rawTextFromStream toks).context_span = none ∧
    (rawTextDefault S).context_span = none ∧
    RawText.to_source_text env
      { token_stream := toks, context_span := none } true = PRes.ok none :=
  ⟨rfl, rfl, rfl, rfl⟩

theorem to_source_text_false_eq {S : Type} (env : SpanEnv S)
    (rt : RawText S) :
    rt.to_source_text env false =
      PRes.ok ((rt.join_spans env).bind env.sourceText) := rfl

/-- C6: the own-tokens-exact strategy ignores the context span pair, its
result is the source text of the pairwise join of the tokens' own spans,
and it is unavailable exactly when the token sequence is empty, some
adjacent span join fails, or the joined span has no recoverable source
text. -/
theorem to_source_text_own_tokens {S : Type} (env : SpanEnv S)
    (toks : List (Tok S)) (c c' : Option (S × S)) :
    RawText.to_source_text env { token_stream := toks, context_span := c }
        false =
      RawText.to_source_text env { token_stream := toks, context_span := c' }
        false ∧
    RawText.to_source_text env { token_stream := toks, context_span := c }
        false =
      PRes.ok ((RawText.join_spans env
        { token_stream := toks, context_span := c }).bind env.sourceText) ∧
    (RawText.to_source_text env { token_stream := toks, context_span := c }
        false = PRes.ok none ↔
      (toks = [] ∨
        (toks ≠ [] ∧ RawText.join_spans env
          { token_stream := toks, context_span := c } = none) ∨
        ∃ sp, RawText.join_spans env
            { token_stream := toks, context_span := c } = some sp ∧
          env.sourceText sp = none)) := by
  refine ⟨rfl, rfl, ?_⟩
  cases toks with
  | nil =>
    simp [to_source_text_false_eq, RawText.join_spans, joinSpansLoop]
  | cons t ts =>
    rcases hj : RawText.join_spans env
        { token_stream := t :: ts, context_span := c } with _ | sp
    · simp [to_source_text_false_eq, hj]
    · rcases hs : env.sourceText sp with _ | txt
      · simp [to_source_text_false_eq, hj, hs]
      · simp [to_source_text_false_eq, hj, hs]

/-- C3 counterexample: `to_string_best` does not always produce a string.
Over the overlapping-boundary environment the context-exact strategy
panics (both containment asserts pass but the slice range is inverted)
and the panic propagates through `to_string_best`. -/
theorem to_string_best_panic :
    RawText.to_string_best cEnvX
      { token_stream := ([] : List (Tok Nat)),
        context_span := some (0, 1) } = PRes.panic := by
  decide

/-- C3 (amended): `to_string_best` returns strategy 1's text whenever
available, else strategy 2's whenever available, else the canonical
rendering of strategy 3, which is total and never reports unavailable;
strategy 2 never panics, so a string is always produced unless strategy 1
panics (that panic propagates). -/
theorem to_string_best_fallback {S : Type} (env : SpanEnv S)
    (rt : RawText S) :
    (∀ s, rt.to_source_text env true = PRes.ok (some s) →
      rt.to_string_best env = PRes.ok s) ∧
    (∀ s, rt.to_source_text env true = PRes.ok none →
      rt.to_source_text env false = PRes.ok (some s) →
      rt.to_string_best env = PRes.ok s) ∧
    (rt.to_source_text env true = PRes.ok none →
      rt.to_source_text env false = PRes.ok none →
      rt.to_string_best env = PRes.ok rt.to_token_stream_string) ∧
    (rt.to_source_text env false ≠ PRes.panic) ∧
    (rt.to_source_text env true ≠ PRes.panic →
      ∃ s, rt.to_string_best env = PRes.ok s) := by
  refine ⟨?_, ?_, ?_, ?_, ?_⟩
  · intro s h; simp [RawText.to_string_best, h]
  · intro s h1 h2; simp [RawText.to_string_best, h1, h2]
  · intro h1 h2; simp [RawText.to_string_best, h1, h2]
  · simp [to_source_text_false_eq]
  · intro h
    rcases e : rt.to_source_text env true with _ | o
    · exact absurd e h
    · rcases o with _ | s
      · rcases e2 : (rt.join_spans env).bind env.sourceText with _ | s2
        · exact ⟨rt.to_token_stream_string,
            by simp [RawText.to_string_best, e, to_source_text_false_eq, e2]⟩
        · exact ⟨s2,
            by simp [RawText.to_string_best, e, to_source_text_false_eq, e2]⟩
      · exact ⟨s, by simp [RawText.to_string_best, e]⟩

/-- When `p` is a prefix of `l`, `q` a suffix of `l`, and the two do not
overlap, the slice of `l` from `p.length` to `l.length - q.length` is
exactly the middle part: `l = p ++ middle ++ q`, and the middle's length
is `l.length - p.length - q.length`. -/
theorem slice_middle {α : Type} (p q l : List α)
    (hp : p <+: l) (hq : q <:+ l)
    (hfit : p.length + q.length ≤ l.length) :
    l = p ++ ((l.drop p.length).take (l.length - q.length - p.length)) ++ q ∧
    ((l.drop p.length).take (l.length - q.length - p.length)).length =
      l.length - p.length - q.length := by
  obtain ⟨u, hu⟩ := hp
  obtain ⟨v, hv⟩ := hq
  have hul : p.length + u.length = l.length := by
    rw [← hu]; simp
  have hvl : v.length + q.length = l.length := by
    rw [← hv]; simp
  have hdrop : l.drop p.length = u := by
    rw [← hu]; exact List.drop_left p u
  have hqdrop : l.drop v.length = q := by
    rw [← hv]; exact List.drop_left v q
  have huq : u.drop (l.length - q.length - p.length) = q := by
    rw [← hdrop, List.drop_drop]
    have harith : p.length + (l.length - q.length - p.length) = v.length := by
      omega
    rw [harith, hqdrop]
  have hsplit : u.take (l.length - q.length - p.length) ++ q = u := by
    conv_rhs =>
      rw [← List.take_append_drop (l.length - q.length - p.length) u]
    rw [huq]
  constructor
  · rw [hdrop, List.append_assoc, hsplit, hu]
  · rw [hdrop, List.length_take]
    omega

/-- C2: whenever the context-exact strategy succeeds, the context pair,
the join and all three source texts were available, the result's length is
`full − before − after`, and the result is the joined text with the
before-text removed from the front and the after-text removed from the
back. -/
theorem to_source_text_strip_invariant {S : Type} (env : SpanEnv S)
    (rt : RawText S) (s : List Char)
    (h : rt.to_source_text env true = PRes.ok (some s)) :
    ∃ b a full full_text start_text end_text,
      rt.context_span = some (b, a) ∧
      env.join b a = some full ∧
      env.sourceText full = some full_text ∧
      env.sourceText b = some start_text ∧
      env.sourceText a = some end_text ∧
      s.length = full_text.length - start_text.length - end_text.length ∧
      full_text = start_text ++ s ++ end_text := by
  rcases hc : rt.context_span with _ | ⟨b, a⟩
  · simp [RawText.to_source_text, hc] at h
  rcases hj : env.join b a with _ | full
  · simp [RawText.to_source_text, hc, hj] at h
  rcases hfull : env.sourceText full with _ | full_text
  · simp [RawText.to_source_text, hc, hj, hfull] at h
  rcases hstext : env.sourceText b with _ | start_text
  · simp [RawText.to_source_text, hc, hj, hfull, hstext] at h
  rcases hetext : env.sourceText a with _ | end_text
  · simp [RawText.to_source_text, hc, hj, hfull, hstext, hetext] at h
  cases hsuf : List.isSuffixOf end_text full_text with
  | false =>
    simp [RawText.to_source_text, hc, hj, hfull, hstext, hetext, hsuf] at h
  | true =>
    cases hpre : List.isPrefixOf start_text full_text with
    | false =>
      simp [RawText.to_source_text, hc, hj, hfull, hstext, hetext, hsuf,
        hpre] at h
    | true =>
      by_cases hr : start_text.length ≤ full_text.length - end_text.length
      · have hs : (full_text.drop start_text.length).take
            (full_text.length - end_text.length - start_text.length) = s := by
          simpa [RawText.to_source_text, hc, hj, hfull, hstext, hetext, hsuf,
            hpre, rustSlice, hr, Nat.sub_le] using h
        have hpp : start_text <+: full_text :=
          List.isPrefixOf_iff_prefix.mp hpre
        have hqq : end_text <:+ full_text :=
          List.isSuffixOf_iff_suffix.mp hsuf
        have hfit : start_text.length + end_text.length ≤
            full_text.length := by
          have := hqq.length_le
          omega
        obtain ⟨heq, hlen⟩ :=
          slice_middle start_text end_text full_text hpp hqq hfit
        exact ⟨b, a, full, full_text, start_text, end_text, rfl, hj, hfull,
          hstext, hetext, by rw [← hs]; omega, by rw [← hs]; exact heq⟩
      · simp [RawText.to_source_text, hc, hj, hfull, hstext, hetext, hsuf,
          hpre, rustSlice, hr] at h

/-- C2, instantiated at scenario A: between `<a>` and `</a>` over the
source `<a> hi </a>`, the recovered text is the four characters
`' ', 'h', 'i', ' '` and the strip invariant holds. -/
theorem to_source_text_strip_invariant_case :
    ∃ b a full full_text start_text end_text,
      ({ token_stream := [], context_span := some (0, 1) } :
          RawText Nat).context_span = some (b, a) ∧
      cEnv.join b a = some full ∧
      cEnv.sourceText full = some full_text ∧
      cEnv.sourceText b = some start_text ∧
      cEnv.sourceText a = some end_text ∧
      ([' ', 'h', 'i', ' '] : List Char).length =
        full_text.length - start_text.length - end_text.length ∧
      full_text = start_text ++ [' ', 'h', 'i', ' '] ++ end_text :=
  to_source_text_strip_invariant cEnv
    { token_stream := [], context_span := some (0, 1) } [' ', 'h', 'i', ' ']
    (by decide)

/-- C7: when the context pair is assigned and the boundary spans support
joining and source-text recovery (the joined text being the before-text,
some middle, and the after-text), the context-exact strategy succeeds and
returns that middle — whatever the token stream is, in particular for an
empty one. -/
theorem to_source_text_context_empty_stream {S : Type} (env : SpanEnv S)
    (b a full : S) (bt mid et : List Char)
    (hj : env.join b a = some full)
    (hf : env.sourceText full = some (bt ++ mid ++ et))
    (hb : env.sourceText b = some bt)
    (ha : env.sourceText a = some et)
    (toks : List (Tok S)) :
    RawText.to_source_text env
      { token_stream := toks, context_span := some (b, a) } true =
      PRes.ok (some mid) := by
  have hsuf : List.isSuffixOf et (bt ++ mid ++ et) = true :=
    List.isSuffixOf_iff_suffix.mpr ⟨bt ++ mid, rfl⟩
  have hpre : List.isPrefixOf bt (bt ++ mid ++ et) = true :=
    List.isPrefixOf_iff_prefix.mpr ⟨mid ++ et, by rw [List.append_assoc]⟩
  have hidx : (bt ++ mid ++ et).length - et.length - bt.length =
      mid.length := by
    simp; omega
  have hdrop : (bt ++ mid ++ et).drop bt.length = mid ++ et := by
    rw [List.append_assoc]; exact List.drop_left bt (mid ++ et)
  have hslice : rustSlice (bt ++ mid ++ et) bt.length
      ((bt ++ mid ++ et).length - et.length) = PRes.ok mid := by
    have hcond : bt.length ≤ (bt ++ mid ++ et).length - et.length ∧
        (bt ++ mid ++ et).length - et.length ≤ (bt ++ mid ++ et).length := by
      constructor
      · simp; omega
      · exact Nat.sub_le _ _
    rw [rustSlice, if_pos hcond, hidx, hdrop, List.take_left]
  simp only [RawText.to_source_text, hj, hf, hb, ha, hsuf, hpre,
    eq_self_iff_true, if_true, hslice]

/-- C7, instantiated at scenario B: between the adjacent tags of
`<a></a>`, an empty filler with context assigned recovers the empty
string, not unavailable. -/
theorem to_source_text_context_empty_stream_case :
    RawText.to_source_text cEnv
      { token_stream := [], context_span := some (3, 4) } true =
      PRes.ok (some []) :=
  to_source_text_context_empty_stream cEnv 3 4 5 ['<', 'a', '>'] []
    ['<', '/', 'a', '>'] (by decide) (by decide) (by decide) (by decide) []

/-- C8 counterexample: with boundary spans denoting the same region `ab`,
both defensive containment checks hold (the before-text is a prefix of the
joined text and the after-text a suffix), yet the context-exact strategy
panics — the two boundary texts overlap, so the slice range is inverted.
The claim that prefix/suffix containment alone rules out a panic is
therefore false. -/
theorem to_source_text_panic_overlap :
    List.isPrefixOf ['a', 'b'] ['a', 'b'] = true ∧
    List.isSuffixOf ['a', 'b'] ['a', 'b'] = true ∧
    cEnvX.join 0 1 = some 2 ∧
    cEnvX.sourceText 2 = some ['a', 'b'] ∧
    cEnvX.sourceText 0 = some ['a', 'b'] ∧
    cEnvX.sourceText 1 = some ['a', 'b'] ∧
    RawText.to_source_text cEnvX
      { token_stream := ([] : List (Tok Nat)),
        context_span := some (0, 1) } true = PRes.panic := by
  decide

/-- C8 (amended): if, whenever the context chain is available, the
before-text is a prefix of the joined text, the after-text a suffix of it,
and the two together are no longer than the joined text (the boundaries do
not overlap), then `to_source_text` never panics — with either flag, so no
user-input condition panics in any recovery strategy. -/
theorem to_source_text_no_panic {S : Type} (env : SpanEnv S)
    (rt : RawText S) (ws : Bool)
    (h : ∀ b a full full_text start_text end_text,
      rt.context_span = some (b, a) → env.join b a = some full →
      env.sourceText full = some full_text →
      env.sourceText b = some start_text →
      env.sourceText a = some end_text →
      List.isPrefixOf start_text full_text = true ∧
      List.isSuffixOf end_text full_text = true ∧
      start_text.length + end_text.length ≤ full_text.length) :
    rt.to_source_text env ws ≠ PRes.panic := by
  cases ws with
  | false => simp [to_source_text_false_eq]
  | true =>
    rcases hc : rt.context_span with _ | ⟨b, a⟩
    · simp [RawText.to_source_text, hc]
    rcases hj : env.join b a with _ | full
    · simp [RawText.to_source_text, hc, hj]
    rcases hfull : env.sourceText full with _ | full_text
    · simp [RawText.to_source_text, hc, hj, hfull]
    rcases hstext : env.sourceText b with _ | start_text
    · simp [RawText.to_source_text, hc, hj, hfull, hstext]
    rcases hetext : env.sourceText a with _ | end_text
    · simp [RawText.to_source_text, hc, hj, hfull, hstext, hetext]
    obtain ⟨hpre, hsuf, hfit⟩ :=
      h b a full full_text start_text end_text hc hj hfull hstext hetext
    have hle : end_text.length ≤ full_text.length :=
      ( List.isSuffixOf_iff_suffix.mp hsuf).length_le
    have hr : start_text.length ≤ full_text.length - end_text.length := by
      omega
    simp [RawText.to_source_text, hc, hj, hfull, hstext, hetext, hpre, hsuf,
      rustSlice, hr, Nat.sub_le]

/-- C8 (amended), instantiated at scenario A's environment: with context
`(0, 1)` the whole chain is available — the join is span 2 over
`<a> hi </a>`, `<a>` is a prefix, `</a>` a suffix, and `3 + 4 ≤ 11` —
so the containment and non-overlap hypotheses hold concretely and the
context-exact strategy does not panic. -/
theorem to_source_text_no_panic_case :
    RawText.to_source_text cEnv
      { token_stream := ([] : List (Tok Nat)), context_span := some (0, 1) }
      true ≠ PRes.panic :=
  to_source_text_no_panic cEnv
    { token_stream := [], context_span := some (0, 1) } true
    (by
      intro b a full full_text start_text end_text hc hj hf hsb hsa
      simp only [Option.some.injEq, Prod.mk.injEq] at hc
      obtain ⟨rfl, rfl⟩ := hc
      rw [show cEnv.join 0 1 = some 2 by decide] at hj
      obtain rfl := Option.some.inj hj
      rw [show cEnv.sourceText 2 =
        some ['<', 'a', '>', ' ', 'h', 'i', ' ', '<', '/', 'a', '>']
        by decide] at hf
      obtain rfl := Option.some.inj hf
      rw [show cEnv.sourceText 0 = some ['<', 'a', '>'] by decide] at hsb
      obtain rfl := Option.some.inj hsb
      rw [show cEnv.sourceText 1 = some ['<', '/', 'a', '>'] by decide] at hsa
      obtain rfl := Option.some.inj hsa
      decide)

theorem setCtxLoop_getElem_window {S : Type} (bs : List S)
    (ns : List (Node S)) (i : Nat) (hb2 : i + 2 < bs.length) (b0 b2 : S)
    (h0 : bs[i]? = some b0) (h2 : bs[i + 2]? = some b2) :
    (setCtxLoop bs ns)[i]? = (ns[i]?).map (applyWindow b0 b2) := by
  induction i generalizing bs ns with
  | zero =>
    rcases bs with _ | ⟨c0, _ | ⟨c1, _ | ⟨c2, brest⟩⟩⟩
    · simp at hb2
    · simp at hb2
    · simp at hb2
    · simp only [List.getElem?_cons_zero, Option.some.injEq] at h0
      simp only [List.getElem?_cons_succ, List.getElem?_cons_zero,
        Option.some.injEq] at h2
      subst h0; subst h2
      cases ns with
      | nil => simp [setCtxLoop]
      | cons n ns => simp [setCtxLoop]
  | succ i ih =>
    rcases bs with _ | ⟨c0, _ | ⟨c1, _ | ⟨c2, brest⟩⟩⟩
    · simp at hb2
    · exact absurd hb2 (by simp)
    · exact absurd hb2 (by simp)
    · cases ns with
      | nil => simp [setCtxLoop]
      | cons n ns =>
        have hb2' : i + 2 < (c1 :: c2 :: brest).length := by
          simp at hb2 ⊢; omega
        have h0' : (c1 :: c2 :: brest)[i]? = some b0 := by
          simpa using h0
        have h2' : (c1 :: c2 :: brest)[i + 2]? = some b2 := by
          simpa using h2
        simpa [setCtxLoop] using ih (c1 :: c2 :: brest) ns hb2' h0' h2'

theorem setCtxLoop_getElem_rest {S : Type} (bs : List S)
    (ns : List (Node S)) (i : Nat) (hb2 : ¬ i + 2 < bs.length) :
    (setCtxLoop bs ns)[i]? = ns[i]? := by
  induction i generalizing bs ns with
  | zero =>
    cases ns with
    | nil => simp [setCtxLoop]
    | cons n ns =>
      rcases bs with _ | ⟨c0, _ | ⟨c1, _ | ⟨c2, brest⟩⟩⟩
      · simp [setCtxLoop]
      · simp [setCtxLoop]
      · simp [setCtxLoop]
      · exact absurd (by simp : (0 : Nat) + 2 < (c0 :: c1 :: c2 :: brest).length) hb2
  | succ i ih =>
    cases ns with
    | nil => simp [setCtxLoop]
    | cons n ns =>
      rcases bs with _ | ⟨c0, _ | ⟨c1, _ | ⟨c2, brest⟩⟩⟩
      · simp [setCtxLoop]
      · simp [setCtxLoop]
      · simp [setCtxLoop]
      · have hb2' : ¬ i + 2 < (c1 :: c2 :: brest).length := by
          simp at hb2 ⊢; omega
        simpa [setCtxLoop] using ih (c1 :: c2 :: brest) ns hb2'

theorem boundarySpans_length {S : Type} (E : S) (close_tag_start : Option S)
    (children : List (Node S)) :
    (boundarySpans E close_tag_start children).length =
      children.length + 1 + close_tag_start.toList.length := by
  simp [boundarySpans]; omega

/-- C1: with both boundary spans present, `vec_set_context` gives the
`RawText` sibling at position `i` the context `(B[i], B[i+2])` from the
boundary list `B = [open_end] ++ sibling spans ++ [close_start]`; `B[0]`
is the open-end span, and for the last sibling `B[i+2]` is the
close-start span. -/
theorem vec_set_context_window {S : Type} (E C : S)
    (children : List (Node S)) (i : Nat) (t : RawText S) (sp : S)
    (hchild : children[i]? = some (Node.rawText t sp)) (b0 b2 : S)
    (hb0 : (boundarySpans E (some C) children)[i]? = some b0)
    (hb2 : (boundarySpans E (some C) children)[i + 2]? = some b2) :
    (RawText.vec_set_context E (some C) children)[i]? =
      some (Node.rawText (t.set_tag_spans b0 b2) sp) ∧
    (boundarySpans E (some C) children)[0]? = some E ∧
    (i + 1 = children.length → b2 = C) := by
  have hi : i < children.length := by
    rcases List.getElem?_eq_some.mp hchild with ⟨h, _⟩
    exact h
  have hlen : (boundarySpans E (some C) children).length =
      children.length + 2 := by
    rw [boundarySpans_length]; simp
  refine ⟨?_, ?_, ?_⟩
  · rw [RawText.vec_set_context,
      setCtxLoop_getElem_window (boundarySpans E (some C) children) children
        i (by omega) b0 b2 hb0 hb2, hchild]
    rfl
  · simp [boundarySpans]
  · intro hil
    have hmap : (children.map Node.span).length = i + 1 := by
      simpa using hil.symm
    have hEmap : (E :: children.map Node.span).length = i + 2 := by
      simp [hmap]
    have hC : (boundarySpans E (some C) children)[i + 2]? = some C := by
      simp only [boundarySpans, Option.toList_some]
      rw [List.getElem?_append_right (by omega), hEmap]
      simp
    rw [hC] at hb2
    exact (Option.some.inj hb2).symm

/-- C1, instantiated: one `RawText` sibling between tags gets the window
`(open_end, close_start)` directly. -/
theorem vec_set_context_window_case :
    (RawText.vec_set_context 1 (some 2)
        [Node.rawText ({ token_stream := [], context_span := none } :
          RawText Nat) 10])[0]? =
      some (Node.rawText
        (RawText.set_tag_spans
          { token_stream := [], context_span := none } 1 2) 10) ∧
    (boundarySpans 1 (some 2)
        [Node.rawText ({ token_stream := [], context_span := none } :
          RawText Nat) 10])[0]? = some 1 ∧
    (0 + 1 = ([Node.rawText ({ token_stream := [], context_span := none } :
        RawText Nat) 10]).length → 2 = 2) :=
  vec_set_context_window 1 2
    [Node.rawText { token_stream := [], context_span := none } 10] 0
    { token_stream := [], context_span := none } 10 (by decide) 1 2
    (by decide) (by decide)

/-- C10: with the close-start boundary absent, `vec_set_context` leaves
the last sibling unmodified — a trailing `RawText` keeps its (`none`)
context, so the context-exact strategy stays unavailable for it — while
every earlier `RawText` sibling still receives its width-3 window. -/
theorem vec_set_context_no_close {S : Type} (env : SpanEnv S) (E : S)
    (children : List (Node S)) (n : Nat) (hlen : children.length = n + 1)
    (t : RawText S) (sp : S)
    (hlast : children[n]? = some (Node.rawText t sp)) :
    (RawText.vec_set_context E none children)[n]? =
      some (Node.rawText t sp) ∧
    (t.context_span = none →
      RawText.to_source_text env t true = PRes.ok none) ∧
    (∀ (i : Nat) (t' : RawText S) (sp' : S) (b0 b2 : S),
      i < n →
      children[i]? = some (Node.rawText t' sp') →
      (boundarySpans E none children)[i]? = some b0 →
      (boundarySpans E none children)[i + 2]? = some b2 →
      (RawText.vec_set_context E none children)[i]? =
        some (Node.rawText (t'.set_tag_spans b0 b2) sp')) := by
  have hblen : (boundarySpans E none children).length = n + 2 := by
    rw [boundarySpans_length]; simp [hlen]
  refine ⟨?_, ?_, ?_⟩
  · rw [RawText.vec_set_context,
      setCtxLoop_getElem_rest (boundarySpans E none children) children n
        (by omega), hlast]
  · intro h
    simp [RawText.to_source_text, h]
  · intro i t' sp' b0 b2 hin hchild hb0 hb2
    rw [RawText.vec_set_context,
      setCtxLoop_getElem_window (boundarySpans E none children) children i
        (by omega) b0 b2 hb0 hb2, hchild]
    rfl

/-- C10, instantiated: two `RawText` siblings with no closing tag — the
first still gets its window, the second is untouched and strategy 1 stays
unavailable on it. -/
theorem vec_set_context_no_close_case :
    (RawText.vec_set_context 6 none
        [Node.rawText ({ token_stream := [], context_span := none } :
            RawText Nat) 7,
          Node.rawText { token_stream := [], context_span := none } 8])[1]? =
      some (Node.rawText { token_stream := [], context_span := none } 8) ∧
    (({ token_stream := [], context_span := none } :
        RawText Nat).context_span = none →
      RawText.to_source_text cEnvX
        { token_stream := [], context_span := none } true = PRes.ok none) ∧
    (∀ (i : Nat) (t' : RawText Nat) (sp' : Nat) (b0 b2 : Nat),
      i < 1 →
      ([Node.rawText ({ token_stream := [], context_span := none } :
          RawText Nat) 7,
        Node.rawText { token_stream := [], context_span := none } 8])[i]? =
        some (Node.rawText t' sp') →
      (boundarySpans 6 none
        [Node.rawText ({ token_stream := [], context_span := none } :
            RawText Nat) 7,
          Node.rawText { token_stream := [], context_span := none } 8])[i]? =
        some b0 →
      (boundarySpans 6 none
        [Node.rawText ({ token_stream := [], context_span := none } :
            RawText Nat) 7,
          Node.rawText { token_stream := [], context_span := none } 8])[i + 2]? =
        some b2 →
      (RawText.vec_set_context 6 none
        [Node.rawText ({ token_stream := [], context_span := none } :
            RawText Nat) 7,
          Node.rawText { token_stream := [], context_span := none } 8])[i]? =
        some (Node.rawText (t'.set_tag_spans b0 b2) sp')) :=
  vec_set_context_no_close cEnvX 6
    [Node.rawText { token_stream := [], context_span := none } 7,
      Node.rawText { token_stream := [], context_span := none } 8] 1
    (by decide) { token_stream := [], context_span := none } 8 (by decide)

end Rstml
